import Mathlib

/-!
# TrafficLight.cpp: the message queue and the phase cycler

A shallow embedding of `src/src/TrafficLight.cpp`.

* `MessageQueue<T>` is a record holding the container `_queue`; the container is
  a `List` whose last element is the container's back.  The container
  primitives used by the source (`empty`, `back`, `pop_back`, `clear`,
  `push_back`) are modelled one by one, `back` and `pop_back` being partial:
  they are undefined on an empty container.
* `receive` is the body of lines 18-23 run under the lock.  The predicate of
  `_condition.wait` is tested first; when it is false the caller stays
  suspended, which the model reports as the outcome `blocked` with the channel
  untouched.
* `TrafficLight` holds `_currentPhase` and the channel `_msg_queue`.
-/

namespace TrafficSim

/-! ## The container primitives -/

/-- The `empty()` test of the container. -/
def empty {α : Type} (q : List α) : Bool :=
  match q with
  | [] => true
  | _ :: _ => false

/-- The `back()` access: the last element, undefined (`none`) on an empty container. -/
def back {α : Type} (q : List α) : Option α :=
  q.getLast?

/-- The `pop_back()` call: drops the last element, undefined (`none`) on an empty container. -/
def pop_back {α : Type} (q : List α) : Option (List α) :=
  match q with
  | [] => none
  | _ :: _ => some q.dropLast

/-- The `clear()` call: every element is removed. -/
def clear {α : Type} (_q : List α) : List α :=
  []

/-- The `push_back(v)` call: `v` becomes the new last element. -/
def push_back {α : Type} (q : List α) (v : α) : List α :=
  q ++ [v]

/-! ## MessageQueue -/

/-- Modelled from the spec: the class declaration of `MessageQueue<T>` lives in
`TrafficLight.h`, which is not among the sources; the spec describes its data as
"a mutable sequence of pending values, a mutex protecting that sequence, and a
condition signal".  Only the sequence carries data. -/
structure MessageQueue (α : Type) where
  _queue : List α
deriving DecidableEq, Repr

/-- What a call of `receive` comes to: the caller stays suspended in the wait,
an access to an empty container was made, or a message is handed back. -/
inductive Outcome (α : Type) where
  | blocked : Outcome α
  | undefined : Outcome α
  | returned (message : α) : Outcome α
deriving DecidableEq, Repr

/-- `MessageQueue<T>::receive`, lines 18-23.  The result pairs the outcome with
the channel after the call. -/
def MessageQueue.receive {α : Type} (mq : MessageQueue α) : Outcome α × MessageQueue α :=
  -- _condition.wait(lock, [this] { return !_queue.empty(); });
  if empty mq._queue then
    (Outcome.blocked, mq)
  else
    -- auto message = std::move(_queue.back());
    match back mq._queue with
    | none => (Outcome.undefined, mq)
    | some message =>
      -- _queue.pop_back();
      match pop_back mq._queue with
      | none => (Outcome.undefined, mq)
      | some q1 =>
        -- _queue.clear();
        (Outcome.returned message, { _queue := clear q1 })

/-- `MessageQueue<T>::send`, lines 33-35: `_queue.push_back(std::move(msg))`. -/
def MessageQueue.send {α : Type} (mq : MessageQueue α) (msg : α) : MessageQueue α :=
  { _queue := push_back mq._queue msg }

/-! ## Sequential runs of the channel -/

/-- One operation applied to the channel. -/
inductive Op (α : Type) where
  | send (v : α) : Op α
  | receive : Op α
deriving DecidableEq, Repr

/-- The channel after one operation, and what the operation handed back
(`none` for a send). -/
def applyOp {α : Type} (mq : MessageQueue α) : Op α → Option (Outcome α) × MessageQueue α
  | Op.send v => (none, mq.send v)
  | Op.receive => (some mq.receive.1, mq.receive.2)

/-- The outcomes of a sequence of operations, one entry per operation. -/
def runOps {α : Type} : MessageQueue α → List (Op α) → List (Option (Outcome α))
  | _, [] => []
  | mq, op :: ops => (applyOp mq op).1 :: runOps (applyOp mq op).2 ops

/-- The channel left by a sequence of operations. -/
def finalQueue {α : Type} : MessageQueue α → List (Op α) → MessageQueue α
  | mq, [] => mq
  | mq, op :: ops => finalQueue (applyOp mq op).2 ops

/-! ## TrafficLight -/

/-- Modelled from the spec: the enumeration `TrafficLightPhase` is declared in
`TrafficLight.h`, which is not among the sources; the spec gives it as "exactly
one of {Red, Green}", and the source names the two values `red` and `green`. -/
inductive TrafficLightPhase where
  | red : TrafficLightPhase
  | green : TrafficLightPhase
deriving DecidableEq, Repr

/-- Modelled from the spec: the class declaration of `TrafficLight` lives in
`TrafficLight.h`, which is not among the sources; the members the source file
reads and writes are `_currentPhase` and the channel `_msg_queue`. -/
structure TrafficLight where
  _currentPhase : TrafficLightPhase
  _msg_queue : MessageQueue TrafficLightPhase
deriving DecidableEq, Repr

/-- The constructor `TrafficLight::TrafficLight`, lines 43-44: the phase is
red and the channel is freshly made. -/
def TrafficLight.construct : TrafficLight :=
  { _currentPhase := TrafficLightPhase.red, _msg_queue := { _queue := [] } }

/-- `TrafficLight::getCurrentPhase`, line 63. -/
def TrafficLight.getCurrentPhase (tl : TrafficLight) : TrafficLightPhase :=
  tl._currentPhase

/-- `TrafficLight::waitForGreen`, lines 53-57, run against the phases that the
successive `_msg_queue->receive()` calls hand back.  The result is the part of
the deliveries that was not consumed when the method returns, and `none` when
the deliveries run out with the loop still going. -/
def TrafficLight.waitForGreen (tl : TrafficLight) :
    List TrafficLightPhase → Option (List TrafficLightPhase)
  | [] => none
  | message :: rest =>
    -- while (_msg_queue->receive() == TrafficLightPhase::red)
    if message = TrafficLightPhase.red then
      TrafficLight.waitForGreen tl rest
    else
      some rest

/-- The toggle of `cycleThroughPhases`, lines 109-121: the phase is flipped,
then the new phase is sent to the channel and the send is waited for. -/
def TrafficLight.toggle (tl : TrafficLight) : TrafficLight :=
  let tl1 : TrafficLight :=
    if tl._currentPhase = TrafficLightPhase.red then
      { tl with _currentPhase := TrafficLightPhase.green }
    else
      { tl with _currentPhase := TrafficLightPhase.red }
  let msg := tl1._currentPhase
  { tl1 with _msg_queue := tl1._msg_queue.send msg }

/-- The locals of `cycleThroughPhases` that live across iterations, together
with the light. -/
structure CycleState where
  light : TrafficLight
  cycle_duration : Int
  last_update : Int
deriving DecidableEq, Repr

/-- What one iteration of the loop takes from outside: the clock read at line
100, the clock read at line 124 and the duration drawn at line 127 (the last two
are only used when the light toggles).  Clock values are in ticks. -/
structure Readings where
  now : Int
  now_reset : Int
  draw : Int
deriving DecidableEq, Repr

/-- The conversion of line 100: `duration_cast<seconds>` of a tick count, an
integer division that rounds toward zero. -/
def duration_cast_seconds (ticksPerSecond : Int) (ticks : Int) : Int :=
  Int.tdiv ticks ticksPerSecond

/-- One iteration of the `while (true)` loop of `cycleThroughPhases`, lines 98-129. -/
def cycleThroughPhases_iteration (ticksPerSecond : Int) (r : Readings) (s : CycleState) :
    CycleState :=
  let time_since_last_update := duration_cast_seconds ticksPerSecond (r.now - s.last_update)
  if time_since_last_update ≥ s.cycle_duration then
    { light := s.light.toggle
      last_update := r.now_reset
      cycle_duration := r.draw }
  else
    s

/-! ## The light and its consumers, step by step -/

/-- A step of the system: the cycler toggles (flip and send, as one step), or
some consumer calls `receive`. -/
inductive Step where
  | toggle : Step
  | receive : Step
deriving DecidableEq, Repr

/-- The light after one step. -/
def TrafficLight.step (tl : TrafficLight) : Step → TrafficLight
  | Step.toggle => tl.toggle
  | Step.receive => { tl with _msg_queue := tl._msg_queue.receive.2 }

/-- The light after a sequence of steps. -/
def TrafficLight.run (tl : TrafficLight) (steps : List Step) : TrafficLight :=
  steps.foldl TrafficLight.step tl

/-- A schedule entry while some thread is inside `waitForGreen`: either the
rest of the system takes a step, or the waiting thread runs its `receive`. -/
inductive Sched where
  | env (s : Step) : Sched
  | own : Sched
deriving DecidableEq, Repr

/-- `TrafficLight::waitForGreen`, lines 53-57, run on the light under a
schedule.  The result is the light at the moment the method returns, and
`none` when the schedule ends with the method still looping or suspended. -/
def TrafficLight.waitForGreenUnder : TrafficLight → List Sched → Option TrafficLight
  | _, [] => none
  | tl, Sched.env s :: rest => TrafficLight.waitForGreenUnder (tl.step s) rest
  | tl, Sched.own :: rest =>
    match tl._msg_queue.receive with
    | (Outcome.returned message, q) =>
      if message = TrafficLightPhase.red then
        TrafficLight.waitForGreenUnder { tl with _msg_queue := q } rest
      else
        some { tl with _msg_queue := q }
    | (Outcome.blocked, q) => TrafficLight.waitForGreenUnder { tl with _msg_queue := q } rest
    | (Outcome.undefined, _) => none

/-- The relation between the channel and the phase field that the toggle
maintains: nothing is pending, or the last pending value is the current phase. -/
def TrafficLight.latestIsCurrent (tl : TrafficLight) : Prop :=
  tl._msg_queue._queue = [] ∨ tl._msg_queue._queue.getLast? = some tl._currentPhase

/-! ## Basic facts on the channel -/

theorem receive_nil {α : Type} :
    (MessageQueue.receive ({ _queue := [] } : MessageQueue α)) = (Outcome.blocked, { _queue := [] }) := rfl

theorem empty_snoc {α : Type} (q : List α) (v : α) : empty (q ++ [v]) = false := by
  cases q <;> rfl

theorem back_snoc {α : Type} (q : List α) (v : α) : back (q ++ [v]) = some v := by
  simp [back]

theorem pop_back_snoc {α : Type} (q : List α) (v : α) : pop_back (q ++ [v]) = some q := by
  cases q with
  | nil => rfl
  | cons a t =>
    show some ((a :: t ++ [v]).dropLast) = some (a :: t)
    rw [List.dropLast_concat]

theorem receive_snoc {α : Type} (q : List α) (v : α) :
    (MessageQueue.receive ({ _queue := q ++ [v] } : MessageQueue α))
      = (Outcome.returned v, { _queue := [] }) := by
  simp [MessageQueue.receive, empty_snoc, back_snoc, pop_back_snoc, clear]

theorem exists_snoc_of_ne_nil {α : Type} (q : List α) (h : q ≠ []) :
    ∃ p v, q = p ++ [v] :=
  ⟨q.dropLast, q.getLast h, (List.dropLast_append_getLast h).symm⟩

theorem foldl_send_queue {α : Type} (vs : List α) (mq : MessageQueue α) :
    (List.foldl MessageQueue.send mq vs)._queue = mq._queue ++ vs := by
  induction vs generalizing mq with
  | nil => simp
  | cons a t ih =>
    rw [List.foldl_cons, ih]
    simp [MessageQueue.send, push_back]

theorem receive_of_ne_nil {α : Type} (q : List α) (h : q ≠ []) :
    MessageQueue.receive ({ _queue := q } : MessageQueue α)
      = (Outcome.returned (q.getLast h), { _queue := [] }) := by
  have hq : q = q.dropLast ++ [q.getLast h] := (List.dropLast_append_getLast h).symm
  calc MessageQueue.receive ({ _queue := q } : MessageQueue α)
      = MessageQueue.receive ({ _queue := q.dropLast ++ [q.getLast h] } : MessageQueue α) := by
        rw [← hq]
    _ = (Outcome.returned (q.getLast h), { _queue := [] }) := receive_snoc _ _

/-! ## The claims on the channel -/

/-- C1: on a non-empty pending sequence `q`, `receive` returns the last element
of `q` and leaves the pending sequence empty; so after the sends of the elements
of `q` into an empty channel one `receive` returns the last value sent, and the
earlier ones are gone: the next `receive` finds nothing and blocks. -/
theorem C1_receive_returns_latest {α : Type} (q : List α) (h : q ≠ []) :
    MessageQueue.receive ({ _queue := q } : MessageQueue α)
        = (Outcome.returned (q.getLast h), { _queue := [] })
    ∧ MessageQueue.receive (List.foldl MessageQueue.send ({ _queue := [] } : MessageQueue α) q)
        = (Outcome.returned (q.getLast h), { _queue := [] })
    ∧ MessageQueue.receive
        (MessageQueue.receive (List.foldl MessageQueue.send ({ _queue := [] } : MessageQueue α) q)).2
        = (Outcome.blocked, { _queue := [] }) := by
  have hf : List.foldl MessageQueue.send ({ _queue := [] } : MessageQueue α) q = { _queue := q } := by
    have := foldl_send_queue q ({ _queue := [] } : MessageQueue α)
    cases hx : List.foldl MessageQueue.send ({ _queue := [] } : MessageQueue α) q with
    | mk q1 =>
      rw [hx] at this
      simp at this
      rw [this]
  refine ⟨receive_of_ne_nil q h, ?_, ?_⟩
  · rw [hf]; exact receive_of_ne_nil q h
  · rw [hf, receive_of_ne_nil q h]; rfl

theorem C1_receive_returns_latest_witness :
    [TrafficLightPhase.red, TrafficLightPhase.red, TrafficLightPhase.green] ≠ []
    ∧ MessageQueue.receive
        ({ _queue := [TrafficLightPhase.red, TrafficLightPhase.red, TrafficLightPhase.green] } :
          MessageQueue TrafficLightPhase)
        = (Outcome.returned TrafficLightPhase.green, { _queue := [] }) :=
  ⟨by decide,
    (C1_receive_returns_latest
      [TrafficLightPhase.red, TrafficLightPhase.red, TrafficLightPhase.green] (by decide)).1⟩

/-- C2, as stated, fails: on the pending sequence `[red, green]` the sequence
left by `receive` is not the one before with exactly one value removed; its
length is 0, not 1. -/
theorem C2_length_counterexample :
    ¬ (∀ q : List TrafficLightPhase, q ≠ [] →
        (MessageQueue.receive ({ _queue := q } : MessageQueue TrafficLightPhase)).2._queue.length + 1
          = q.length) := by
  intro hall
  have h2 := hall [TrafficLightPhase.red, TrafficLightPhase.green] (by decide)
  revert h2
  decide

/-- C2, amended: on a non-empty pending sequence `q` the call of `receive`
returns exactly one value, the last element of `q` (the value most recently
sent, which is one of the pending values), and leaves the pending sequence
empty: its length after the call is 0, so it drops by exactly one only when
exactly one value was pending; the values before the last one are discarded,
and the next `receive` finds nothing and blocks. -/
theorem C2_receive_drains {α : Type} (q : List α) (h : q ≠ []) :
    (MessageQueue.receive ({ _queue := q } : MessageQueue α)).1 = Outcome.returned (q.getLast h)
    ∧ q.getLast? = some (q.getLast h)
    ∧ q.getLast h ∈ q
    ∧ q = q.dropLast ++ [q.getLast h]
    ∧ (MessageQueue.receive ({ _queue := q } : MessageQueue α)).2 = { _queue := [] }
    ∧ (MessageQueue.receive ({ _queue := q } : MessageQueue α)).2._queue.length = 0
    ∧ ((MessageQueue.receive ({ _queue := q } : MessageQueue α)).2._queue.length + 1 = q.length
        ↔ q.length = 1)
    ∧ MessageQueue.receive (MessageQueue.receive ({ _queue := q } : MessageQueue α)).2
        = (Outcome.blocked, { _queue := [] }) := by
  refine ⟨?_, List.getLast?_eq_getLast q h, List.getLast_mem h,
    (List.dropLast_append_getLast h).symm, ?_, ?_, ?_, ?_⟩
  · rw [receive_of_ne_nil q h]
  · rw [receive_of_ne_nil q h]
  · rw [receive_of_ne_nil q h]
    rfl
  · rw [receive_of_ne_nil q h]
    simp
    exact eq_comm
  · rw [receive_of_ne_nil q h]
    rfl

theorem C2_receive_drains_witness :
    [TrafficLightPhase.red, TrafficLightPhase.green] ≠ []
    ∧ (MessageQueue.receive ({ _queue := [TrafficLightPhase.red, TrafficLightPhase.green] } :
          MessageQueue TrafficLightPhase)).1 = Outcome.returned TrafficLightPhase.green
    ∧ (MessageQueue.receive ({ _queue := [TrafficLightPhase.red, TrafficLightPhase.green] } :
          MessageQueue TrafficLightPhase)).2 = { _queue := [] } :=
  ⟨by decide,
   (C2_receive_drains [TrafficLightPhase.red, TrafficLightPhase.green] (by decide)).1,
   (C2_receive_drains [TrafficLightPhase.red, TrafficLightPhase.green] (by decide)).2.2.2.2.1⟩

/-- C4: `send v` is total and leaves the pending sequence equal to the one
before with `v` appended at the end; the pending sequence is then non-empty, and
after any further sends it is the same sequence extended by them, still
non-empty, until a `receive` returns a value and leaves it empty. -/
theorem C4_send_appends {α : Type} (mq : MessageQueue α) (v : α) (more : List α) :
    (mq.send v)._queue = mq._queue ++ [v]
    ∧ (mq.send v)._queue ≠ []
    ∧ (List.foldl MessageQueue.send (mq.send v) more)._queue = mq._queue ++ [v] ++ more
    ∧ (List.foldl MessageQueue.send (mq.send v) more)._queue ≠ []
    ∧ (∃ m, (MessageQueue.receive (List.foldl MessageQueue.send (mq.send v) more))
        = (Outcome.returned m, { _queue := [] })) := by
  have h1 : (mq.send v)._queue = mq._queue ++ [v] := rfl
  have h3 : (List.foldl MessageQueue.send (mq.send v) more)._queue = mq._queue ++ [v] ++ more := by
    rw [foldl_send_queue, h1]
  have h4 : (List.foldl MessageQueue.send (mq.send v) more)._queue ≠ [] := by
    rw [h3]; simp
  refine ⟨h1, by rw [h1]; simp, h3, h4, ?_⟩
  cases hx : List.foldl MessageQueue.send (mq.send v) more with
  | mk q1 =>
    rw [hx] at h4
    exact ⟨q1.getLast h4, receive_of_ne_nil q1 h4⟩

/-- C5: `receive` never makes an undefined container access; whenever it
returns a message the pending sequence was non-empty and both `back()` and
`pop_back()` were defined on it; on an empty pending sequence it hands back no
value (the caller stays blocked) and the channel is unchanged. -/
theorem C5_receive_guarded {α : Type} (mq : MessageQueue α) :
    mq.receive.1 ≠ Outcome.undefined
    ∧ (∀ m, mq.receive.1 = Outcome.returned m →
        mq._queue ≠ [] ∧ (back mq._queue).isSome = true ∧ (pop_back mq._queue).isSome = true)
    ∧ (mq._queue = [] → mq.receive = (Outcome.blocked, mq)) := by
  cases mq with
  | mk q =>
    by_cases hq : q = []
    · subst hq
      refine ⟨by simp [receive_nil], ?_, fun _ => rfl⟩
      intro m hm
      simp [receive_nil] at hm
    · obtain ⟨p, v, rfl⟩ := exists_snoc_of_ne_nil q hq
      refine ⟨by simp [receive_snoc], ?_, fun h => absurd h hq⟩
      intro m _
      exact ⟨hq, by simp [back_snoc], by simp [pop_back_snoc]⟩

theorem C5_receive_guarded_witness :
    (MessageQueue.receive ({ _queue := [] } : MessageQueue TrafficLightPhase))
      = (Outcome.blocked, { _queue := [] })
    ∧ (back [TrafficLightPhase.green]).isSome = true :=
  ⟨(C5_receive_guarded ({ _queue := [] } : MessageQueue TrafficLightPhase)).2.2 rfl,
   ((C5_receive_guarded ({ _queue := [TrafficLightPhase.green] } : MessageQueue TrafficLightPhase)).2.1
      TrafficLightPhase.green rfl).2.1⟩

theorem receive_returned_mem {α : Type} (mq : MessageQueue α) (v : α)
    (h : mq.receive.1 = Outcome.returned v) : v ∈ mq._queue := by
  cases mq with
  | mk q =>
    by_cases hq : q = []
    · subst hq
      simp [receive_nil] at h
    · rw [receive_of_ne_nil q hq] at h
      simp at h
      rw [← h]
      exact List.getLast_mem hq

theorem receive_queue_nil {α : Type} (mq : MessageQueue α) : mq.receive.2._queue = [] := by
  cases mq with
  | mk q =>
    by_cases hq : q = []
    · subst hq
      rfl
    · rw [receive_of_ne_nil q hq]

theorem runOps_returned_origin {α : Type} (ops : List (Op α)) :
    ∀ (mq : MessageQueue α) (i : Nat) (v : α),
      (runOps mq ops)[i]? = some (some (Outcome.returned v)) →
      v ∈ mq._queue ∨ ∃ j, j < i ∧ ops[j]? = some (Op.send v) := by
  induction ops with
  | nil =>
    intro mq i v h
    simp [runOps] at h
  | cons op ops ih =>
    intro mq i v h
    cases i with
    | zero =>
      cases op with
      | send w => simp [runOps, applyOp] at h
      | receive =>
        simp [runOps, applyOp] at h
        exact Or.inl (receive_returned_mem mq v h)
    | succ i =>
      have h1 : (runOps (applyOp mq op).2 ops)[i]? = some (some (Outcome.returned v)) := by
        simpa [runOps] using h
      rcases ih _ i v h1 with hmem | ⟨j, hj, hop⟩
      · cases op with
        | send w =>
          have hmem1 : v ∈ mq._queue ++ [w] := hmem
          rcases List.mem_append.mp hmem1 with hl | hr
          · exact Or.inl hl
          · right
            refine ⟨0, Nat.succ_pos i, ?_⟩
            simp at hr
            simp [hr]
        | receive =>
          have hmem1 : v ∈ mq.receive.2._queue := hmem
          rw [receive_queue_nil] at hmem1
          simp at hmem1
      · exact Or.inr ⟨j + 1, Nat.succ_lt_succ hj, by simpa using hop⟩

/-- C3: in any finite sequence of sends and receives applied to an initially
empty channel, a value returned by the receive at position `i` is the argument
of a send at some earlier position `j`. -/
theorem C3_no_fabricated_value {α : Type} (ops : List (Op α)) (i : Nat) (v : α)
    (h : (runOps ({ _queue := [] } : MessageQueue α) ops)[i]? = some (some (Outcome.returned v))) :
    ∃ j, j < i ∧ ops[j]? = some (Op.send v) := by
  rcases runOps_returned_origin ops _ i v h with hmem | hj
  · simp at hmem
  · exact hj

theorem C3_no_fabricated_value_witness :
    (runOps ({ _queue := [] } : MessageQueue TrafficLightPhase)
        [Op.receive, Op.send TrafficLightPhase.red, Op.send TrafficLightPhase.green, Op.receive])[3]?
      = some (some (Outcome.returned TrafficLightPhase.green))
    ∧ ∃ j, j < 3 ∧
        [Op.receive, Op.send TrafficLightPhase.red, Op.send TrafficLightPhase.green, Op.receive][j]?
          = some (Op.send TrafficLightPhase.green) :=
  ⟨by decide,
   C3_no_fabricated_value
     [Op.receive, Op.send TrafficLightPhase.red, Op.send TrafficLightPhase.green, Op.receive]
     3 TrafficLightPhase.green (by decide)⟩

/-! ## The claims on the light -/

theorem toggle_phase (tl : TrafficLight) :
    tl.toggle._currentPhase
      = (if tl._currentPhase = TrafficLightPhase.red then TrafficLightPhase.green
         else TrafficLightPhase.red) := by
  unfold TrafficLight.toggle
  by_cases h : tl._currentPhase = TrafficLightPhase.red <;> simp [h]

theorem toggle_queue (tl : TrafficLight) :
    tl.toggle._msg_queue._queue = tl._msg_queue._queue ++ [tl.toggle._currentPhase] := by
  unfold TrafficLight.toggle
  by_cases h : tl._currentPhase = TrafficLightPhase.red <;>
    simp [h, MessageQueue.send, push_back]

/-- C6: one iteration of the loop of `cycleThroughPhases`, with `e` the elapsed
whole seconds and `d` the drawn duration.  If `e ≥ d`, red becomes green and
green becomes red, the channel holds what it held before followed by exactly one
new value, the new current phase, and the baseline is the fresh clock reading.
If `e < d`, phase, channel and baseline (the whole state) are unchanged. -/
theorem C6_iteration (ticksPerSecond : Int) (r : Readings) (s : CycleState) :
    (duration_cast_seconds ticksPerSecond (r.now - s.last_update) ≥ s.cycle_duration →
      (s.light._currentPhase = TrafficLightPhase.red →
        (cycleThroughPhases_iteration ticksPerSecond r s).light._currentPhase
          = TrafficLightPhase.green)
      ∧ (s.light._currentPhase = TrafficLightPhase.green →
        (cycleThroughPhases_iteration ticksPerSecond r s).light._currentPhase
          = TrafficLightPhase.red)
      ∧ (cycleThroughPhases_iteration ticksPerSecond r s).light._msg_queue._queue
          = s.light._msg_queue._queue
            ++ [(cycleThroughPhases_iteration ticksPerSecond r s).light._currentPhase]
      ∧ (cycleThroughPhases_iteration ticksPerSecond r s).last_update = r.now_reset)
    ∧ (duration_cast_seconds ticksPerSecond (r.now - s.last_update) < s.cycle_duration →
      (cycleThroughPhases_iteration ticksPerSecond r s).light._currentPhase
          = s.light._currentPhase
      ∧ (cycleThroughPhases_iteration ticksPerSecond r s).light._msg_queue = s.light._msg_queue
      ∧ (cycleThroughPhases_iteration ticksPerSecond r s).last_update = s.last_update
      ∧ cycleThroughPhases_iteration ticksPerSecond r s = s) := by
  constructor
  · intro h
    have hstep : cycleThroughPhases_iteration ticksPerSecond r s
        = { light := s.light.toggle, last_update := r.now_reset, cycle_duration := r.draw } := by
      unfold cycleThroughPhases_iteration
      simp only [h, if_true]
    rw [hstep]
    refine ⟨?_, ?_, toggle_queue s.light, rfl⟩
    · intro hr
      simp [toggle_phase, hr]
    · intro hg
      simp [toggle_phase, hg]
  · intro h
    have hstep : cycleThroughPhases_iteration ticksPerSecond r s = s := by
      unfold cycleThroughPhases_iteration
      simp only [ge_iff_le, not_le.mpr h, if_false]
    rw [hstep]
    exact ⟨rfl, rfl, rfl, rfl⟩

theorem C6_iteration_witness :
    (cycleThroughPhases_iteration 1000
        { now := 9500, now_reset := 9502, draw := 6 }
        { light := TrafficLight.construct, cycle_duration := 4, last_update := 5000 }).light._currentPhase
      = TrafficLightPhase.green
    ∧ cycleThroughPhases_iteration 1000
        { now := 8999, now_reset := 9001, draw := 6 }
        { light := TrafficLight.construct, cycle_duration := 4, last_update := 5000 }
      = { light := TrafficLight.construct, cycle_duration := 4, last_update := 5000 } :=
  ⟨((C6_iteration 1000 { now := 9500, now_reset := 9502, draw := 6 }
        { light := TrafficLight.construct, cycle_duration := 4, last_update := 5000 }).1
        (by decide)).1 rfl,
   ((C6_iteration 1000 { now := 8999, now_reset := 9001, draw := 6 }
        { light := TrafficLight.construct, cycle_duration := 4, last_update := 5000 }).2
        (by decide)).2.2.2⟩

theorem waitForGreen_all_red (tl : TrafficLight) (ds : List TrafficLightPhase)
    (h : ∀ x ∈ ds, x = TrafficLightPhase.red) : tl.waitForGreen ds = none := by
  induction ds with
  | nil => rfl
  | cons a t ih =>
    have ha : a = TrafficLightPhase.red := h a (List.mem_cons_self a t)
    have ht : ∀ x ∈ t, x = TrafficLightPhase.red := fun x hx => h x (List.mem_cons_of_mem a hx)
    simp [TrafficLight.waitForGreen, ha, ih ht]

theorem waitForGreen_first_green (tl : TrafficLight) (ds : List TrafficLightPhase)
    (h : TrafficLightPhase.green ∈ ds) :
    ∃ reds rest, ds = reds ++ TrafficLightPhase.green :: rest
      ∧ (∀ x ∈ reds, x = TrafficLightPhase.red)
      ∧ tl.waitForGreen ds = some rest := by
  induction ds with
  | nil => simp at h
  | cons a t ih =>
    cases a with
    | green =>
      exact ⟨[], t, rfl, by simp, by simp [TrafficLight.waitForGreen]⟩
    | red =>
      have ht : TrafficLightPhase.green ∈ t := by
        simpa using h
      obtain ⟨reds, rest, hds, hreds, hw⟩ := ih ht
      refine ⟨TrafficLightPhase.red :: reds, rest, by simp [hds], ?_, ?_⟩
      · intro x hx
        rcases List.mem_cons.mp hx with hx1 | hx2
        · exact hx1
        · exact hreds x hx2
      · simp [TrafficLight.waitForGreen, hw]

theorem waitForGreen_indep (tl tl1 : TrafficLight) (ds : List TrafficLightPhase) :
    tl1.waitForGreen ds = tl.waitForGreen ds := by
  induction ds with
  | nil => rfl
  | cons a t ih => simp [TrafficLight.waitForGreen, ih]

/-- C7: for every sequence `ds` of phases delivered by the successive `receive`
calls: if `ds` contains a green, `waitForGreen` returns, having consumed the
reds before the first green and that green, and nothing after it; if every
delivery is red it has not returned; and the result is the same for any other
light, whatever its current-phase field holds. -/
theorem C7_waitForGreen (tl : TrafficLight) (ds : List TrafficLightPhase) :
    (TrafficLightPhase.green ∈ ds →
      ∃ reds rest, ds = reds ++ TrafficLightPhase.green :: rest
        ∧ (∀ x ∈ reds, x = TrafficLightPhase.red)
        ∧ tl.waitForGreen ds = some rest)
    ∧ ((∀ x ∈ ds, x = TrafficLightPhase.red) → tl.waitForGreen ds = none)
    ∧ (∀ tl1 : TrafficLight, tl1.waitForGreen ds = tl.waitForGreen ds) :=
  ⟨waitForGreen_first_green tl ds, waitForGreen_all_red tl ds,
   fun tl1 => waitForGreen_indep tl tl1 ds⟩

theorem C7_waitForGreen_witness :
    TrafficLightPhase.green ∈
        [TrafficLightPhase.red, TrafficLightPhase.red, TrafficLightPhase.green, TrafficLightPhase.red]
    ∧ (∃ reds rest,
        [TrafficLightPhase.red, TrafficLightPhase.red, TrafficLightPhase.green, TrafficLightPhase.red]
          = reds ++ TrafficLightPhase.green :: rest
        ∧ (∀ x ∈ reds, x = TrafficLightPhase.red)
        ∧ TrafficLight.construct.waitForGreen
            [TrafficLightPhase.red, TrafficLightPhase.red, TrafficLightPhase.green,
              TrafficLightPhase.red] = some rest) :=
  ⟨by decide,
   (C7_waitForGreen TrafficLight.construct
      [TrafficLightPhase.red, TrafficLightPhase.red, TrafficLightPhase.green, TrafficLightPhase.red]).1
      (by decide)⟩

theorem iterate_toggle_state (n : Nat) :
    (TrafficLight.toggle^[n] TrafficLight.construct)._currentPhase
        = (if n % 2 = 0 then TrafficLightPhase.red else TrafficLightPhase.green)
    ∧ (TrafficLight.toggle^[n] TrafficLight.construct)._msg_queue._queue
        = (List.range n).map
            (fun i => if i % 2 = 0 then TrafficLightPhase.green else TrafficLightPhase.red) := by
  induction n with
  | zero => exact ⟨rfl, rfl⟩
  | succ n ih =>
    obtain ⟨hp, hq⟩ := ih
    rw [Function.iterate_succ_apply']
    have hphase : (TrafficLight.toggle (TrafficLight.toggle^[n] TrafficLight.construct))._currentPhase
        = (if (n + 1) % 2 = 0 then TrafficLightPhase.red else TrafficLightPhase.green) := by
      rw [toggle_phase, hp]
      rcases Nat.mod_two_eq_zero_or_one n with h0 | h1
      · have h2 : (n + 1) % 2 = 1 := by omega
        simp [h0, h2]
      · have h2 : (n + 1) % 2 = 0 := by omega
        simp [h1, h2]
    refine ⟨hphase, ?_⟩
    rw [toggle_queue, hphase, hq, List.range_succ, List.map_append]
    rcases Nat.mod_two_eq_zero_or_one n with h0 | h1
    · have h2 : (n + 1) % 2 = 1 := by omega
      simp [h0, h2]
    · have h2 : (n + 1) % 2 = 0 := by omega
      simp [h1, h2]

/-- C8: `getCurrentPhase` on a freshly constructed light is red; after `n`
toggles of a fresh light it is red when `n` is even and green when `n` is odd;
the values pushed to the channel by these `n` toggles are green, red, green, ...
(green at the even positions, counted from 0); two toggles in a row restore the
phase of any light. -/
theorem C8_alternation (n : Nat) (tl : TrafficLight) :
    TrafficLight.construct.getCurrentPhase = TrafficLightPhase.red
    ∧ (TrafficLight.toggle^[n] TrafficLight.construct).getCurrentPhase
        = (if n % 2 = 0 then TrafficLightPhase.red else TrafficLightPhase.green)
    ∧ (TrafficLight.toggle^[n] TrafficLight.construct)._msg_queue._queue
        = (List.range n).map
            (fun i => if i % 2 = 0 then TrafficLightPhase.green else TrafficLightPhase.red)
    ∧ tl.toggle.toggle.getCurrentPhase = tl.getCurrentPhase := by
  refine ⟨rfl, (iterate_toggle_state n).1, (iterate_toggle_state n).2, ?_⟩
  unfold TrafficLight.getCurrentPhase
  rw [toggle_phase, toggle_phase]
  cases tl._currentPhase <;> simp

/-! ## The channel follows the phase -/

theorem latestIsCurrent_toggle (tl : TrafficLight) : tl.toggle.latestIsCurrent := by
  right
  rw [toggle_queue]
  simp

theorem latestIsCurrent_receive (tl : TrafficLight) :
    TrafficLight.latestIsCurrent { tl with _msg_queue := tl._msg_queue.receive.2 } :=
  Or.inl (receive_queue_nil tl._msg_queue)

theorem latestIsCurrent_step (tl : TrafficLight) (s : Step) : (tl.step s).latestIsCurrent := by
  cases s with
  | toggle => exact latestIsCurrent_toggle tl
  | receive => exact latestIsCurrent_receive tl

theorem latestIsCurrent_run (steps : List Step) :
    ∀ tl : TrafficLight, tl.latestIsCurrent → (tl.run steps).latestIsCurrent := by
  induction steps with
  | nil => intro tl h; exact h
  | cons s rest ih =>
    intro tl _
    exact ih (tl.step s) (latestIsCurrent_step tl s)

theorem receive_current (tl : TrafficLight) (h : tl.latestIsCurrent) (m : TrafficLightPhase)
    (hm : tl._msg_queue.receive.1 = Outcome.returned m) : m = tl._currentPhase := by
  cases tl with
  | mk phase mq =>
    cases mq with
    | mk q =>
      by_cases hq : q = []
      · subst hq
        simp [receive_nil] at hm
      · rcases h with h0 | h1
        · exact absurd h0 hq
        · obtain ⟨p, v, rfl⟩ := exists_snoc_of_ne_nil q hq
          have h2 : (p ++ [v]).getLast? = some phase := h1
          simp at h2
          simp [receive_snoc] at hm
          rw [← hm, h2]

theorem waitForGreenUnder_green (sched : List Sched) :
    ∀ tl s1 : TrafficLight, tl.latestIsCurrent → tl.waitForGreenUnder sched = some s1 →
      s1._currentPhase = TrafficLightPhase.green := by
  induction sched with
  | nil =>
    intro tl s1 _ h
    simp [TrafficLight.waitForGreenUnder] at h
  | cons e rest ih =>
    intro tl s1 hinv h
    cases e with
    | env s =>
      exact ih (tl.step s) s1 (latestIsCurrent_step tl s) h
    | own =>
      have hcur := receive_current tl hinv
      have hnext := latestIsCurrent_receive tl
      unfold TrafficLight.waitForGreenUnder at h
      revert h hcur hnext
      rcases tl._msg_queue.receive with ⟨o, q⟩
      intro hcur hnext h
      cases o with
      | blocked => exact ih _ s1 hnext h
      | undefined => simp at h
      | returned m =>
        have hmc : m = tl._currentPhase := hcur m rfl
        by_cases hred : m = TrafficLightPhase.red
        · simp only [hred, if_true] at h
          exact ih _ s1 hnext h
        · simp only [hred, if_false, Option.some.injEq] at h
          rw [← h]
          show tl._currentPhase = TrafficLightPhase.green
          rw [← hmc]
          cases m with
          | red => exact absurd rfl hred
          | green => rfl

/-- C10: in every state reached from a freshly constructed light by toggle
steps and `receive` calls, the pending sequence is empty or its last element is
the current phase; a `receive` that returns there returns the current phase;
and a `waitForGreen` started there, under any schedule of further toggles,
other receives and its own receives, returns only in a state whose current
phase is green. -/
theorem C10_channel_follows_phase (steps : List Step) :
    ((TrafficLight.construct.run steps)._msg_queue._queue = []
      ∨ (TrafficLight.construct.run steps)._msg_queue._queue.getLast?
          = some (TrafficLight.construct.run steps)._currentPhase)
    ∧ (∀ m, (TrafficLight.construct.run steps)._msg_queue.receive.1 = Outcome.returned m →
        m = (TrafficLight.construct.run steps).getCurrentPhase)
    ∧ (∀ (sched : List Sched) (s1 : TrafficLight),
        (TrafficLight.construct.run steps).waitForGreenUnder sched = some s1 →
        s1.getCurrentPhase = TrafficLightPhase.green) := by
  have hinv : (TrafficLight.construct.run steps).latestIsCurrent :=
    latestIsCurrent_run steps TrafficLight.construct (Or.inl rfl)
  exact ⟨hinv, receive_current _ hinv, fun sched s1 h => waitForGreenUnder_green sched _ s1 hinv h⟩

theorem C10_channel_follows_phase_witness :
    (TrafficLight.construct.run [Step.toggle, Step.receive, Step.toggle, Step.toggle]).waitForGreenUnder
        [Sched.own, Sched.own, Sched.env Step.toggle, Sched.own, Sched.env Step.toggle,
          Sched.env Step.toggle, Sched.own, Sched.env Step.toggle]
      = some { _currentPhase := TrafficLightPhase.green, _msg_queue := { _queue := [] } }
    ∧ TrafficLight.getCurrentPhase
        { _currentPhase := TrafficLightPhase.green, _msg_queue := { _queue := [] } }
      = TrafficLightPhase.green :=
  ⟨by decide,
   (C10_channel_follows_phase [Step.toggle, Step.receive, Step.toggle, Step.toggle]).2.2
      [Sched.own, Sched.own, Sched.env Step.toggle, Sched.own, Sched.env Step.toggle,
        Sched.env Step.toggle, Sched.own, Sched.env Step.toggle]
      { _currentPhase := TrafficLightPhase.green, _msg_queue := { _queue := [] } }
      (by decide)⟩

end TrafficSim
